import Mathlib

/-!
Verification of the Fastpass endpoint timeslot scheduler
(src/src/kernel-mod/sch_fastpass.c) and the userspace ring buffer
(src/src/graph-algo/fp_ring.h) against the natural-language specification.

The C data structures and operations are shallowly embedded: per-flow
counters from `struct fp_flow` become a Lean structure of naturals, the
stateful procedures become pure state-transformers, and 64-bit machine
arithmetic is modelled as `Nat` with explicit `% 2 ^ 64` at the points
where wraparound is observable.
-/

namespace Fastpass

/-! ## Constants, from the macros at the top of sch_fastpass.c -/

def FASTPASS_HORIZON : Nat := 64

def FASTPASS_REQUEST_WINDOW_SIZE : Nat := 2 ^ 13

def FASTPASS_REQUEST_LOW_WATERMARK : Nat := 2 ^ 9

def FASTPASS_PKT_MAX_AREQ : Nat := 10

/-- NO_NEXT_REQUEST is `~0ULL`, i.e. the all-ones 64-bit value. -/
def NO_NEXT_REQUEST : Nat := 2 ^ 64 - 1

/-! ## Per-flow state (`struct fp_flow`)

The `state` field takes the three values of the anonymous enum
FLOW_UNQUEUED / FLOW_REQUEST_QUEUE / FLOW_RETRANSMIT_QUEUE. -/

inductive FlowState where
  | unqueued
  | requestQueue
  | retransmitQueue
deriving DecidableEq

structure FpFlow where
  src_dst_key : Nat
  demand_tslots : Nat
  requested_tslots : Nat
  acked_tslots : Nat
  alloc_tslots : Nat
  state : FlowState
deriving DecidableEq

/-- flow_is_below_watermark:
`requested_tslots <= alloc_tslots + FASTPASS_REQUEST_LOW_WATERMARK`. -/
def flow_is_below_watermark (f : FpFlow) : Prop :=
  f.requested_tslots ≤ f.alloc_tslots + FASTPASS_REQUEST_LOW_WATERMARK

instance (f : FpFlow) : Decidable (flow_is_below_watermark f) := by
  unfold flow_is_below_watermark; infer_instance

/-- Effect of flowqueue_enqueue_request on the state field of the flow: a flow
already in the retransmit queue stays there (early return); the
FLOW_REQUEST_QUEUE case is a kernel BUG_ON and cannot occur at the call
sites (callers check the flow is not in the request queue), we keep the
state unchanged there; an unqueued flow moves to the request queue. -/
def enqueueRequestState (s : FlowState) : FlowState :=
  match s with
  | .retransmitQueue => .retransmitQueue
  | .requestQueue => .requestQueue
  | .unqueued => .requestQueue

/-- flow_inc_demand, restricted to the fields of the flow itself: increments
`demand_tslots` and enqueues the flow on the request queue when the new
demand just exceeded `requested_tslots` and the flow is below the request
low watermark.  (The aggregate `q->demand_tslots` is incremented by 1
unconditionally; callers account for it.) -/
def flow_inc_demand (f : FpFlow) : FpFlow :=
  let f1 : FpFlow := { f with demand_tslots := f.demand_tslots + 1 }
  if f1.demand_tslots = f1.requested_tslots + 1 ∧ flow_is_below_watermark f1 then
    { f1 with state := enqueueRequestState f1.state }
  else
    f1

/-- flow_inc_alloc, restricted to the fields of the flow itself.  Returns the
updated flow and a flag telling whether the allocation was unwanted
(`alloc_tslots == demand_tslots`): in that case the flow is returned
unchanged and the caller bumps `stat.unwanted_alloc`; otherwise
`alloc_tslots` is incremented (as is the aggregate `q->alloc_tslots`,
accounted by callers) and the flow is enqueued for a request when it is
unqueued, not fully requested, and below the watermark. -/
def flow_inc_alloc (f : FpFlow) : FpFlow × Bool :=
  if f.alloc_tslots = f.demand_tslots then
    (f, true)
  else
    let f1 : FpFlow := { f with alloc_tslots := f.alloc_tslots + 1 }
    if f1.state = .unqueued ∧ f1.requested_tslots ≠ f1.demand_tslots ∧
        flow_is_below_watermark f1 then
      ({ f1 with state := enqueueRequestState f1.state }, false)
    else
      (f1, false)

/-- flow_inc_alloc acting on (flow, aggregate q->alloc_tslots,
q->stat.unwanted_alloc), exactly as the source updates the three. -/
def flow_inc_alloc_q (s : FpFlow × Nat × Nat) : FpFlow × Nat × Nat :=
  let r := flow_inc_alloc s.1
  if r.2 then (r.1, s.2.1, s.2.2 + 1) else (r.1, s.2.1 + 1, s.2.2)

/-! ## Request pacer (set_request_timer / trigger_request) -/

structure PacerState where
  req_t : Nat
  req_cost : Nat
  req_min_gap : Nat
  time_next_req : Nat
deriving DecidableEq

/-- set_request_timer: `time_next_req = max(req_t + req_cost, when + req_min_gap)`. -/
def set_request_timer (q : PacerState) (when : Nat) : PacerState :=
  { q with time_next_req := max (q.req_t + q.req_cost) (when + q.req_min_gap) }

/-- trigger_request: arms the request timer only when no request is
currently scheduled (`time_next_req == NO_NEXT_REQUEST`). -/
def trigger_request (q : PacerState) (when : Nat) : PacerState :=
  if q.time_next_req = NO_NEXT_REQUEST then set_request_timer q when else q

/-! ## Per-destination counter state machine (claim C1)

The scheduler operations that touch the counters of one destination, projected
onto that destination.  `inflight` records the `tslots` values of AREQ
entries committed by send_request and not yet consumed by the ack/nack
callbacks (`pd->areq[i].tslots`). -/

structure ReqState where
  f : FpFlow
  inflight : List Nat
deriving DecidableEq

/-- The `new_requested` computed for a dequeued flow in send_request:
`min(demand_tslots, alloc_tslots + FASTPASS_REQUEST_WINDOW_SIZE - 1)`. -/
def sendNewRequested (f : FpFlow) : Nat :=
  min f.demand_tslots (f.alloc_tslots + FASTPASS_REQUEST_WINDOW_SIZE - 1)

/-- Demand-side enqueue: flow_enqueue_skb consuming a fresh timeslot of
credit calls flow_inc_demand. -/
def opEnqueue (s : ReqState) : ReqState :=
  { s with f := flow_inc_demand s.f }

/-- Timeslot release / in-bounds allocation accounting:
update_current_timeslot calls flow_inc_alloc on the released flow. -/
def opAllocRelease (s : ReqState) : ReqState :=
  { s with f := (flow_inc_alloc s.f).1 }

/-- handle_out_of_bounds_allocation on a present flow: flow_inc_demand
followed by flow_inc_alloc (too-late or premature allocation). -/
def opOutOfBounds (s : ReqState) : ReqState :=
  { s with f := (flow_inc_alloc (flow_inc_demand s.f)).1 }

/-- Request assembly: send_request dequeues the flow (state becomes
FLOW_UNQUEUED), computes new_requested, and either skips the flow
(`new_requested <= acked_tslots`, stat queued_flow_already_acked) or
commits an AREQ entry with that value and updates requested_tslots. -/
def opSendRequest (s : ReqState) : ReqState :=
  let f0 : FpFlow := { s.f with state := .unqueued }
  let nr := sendNewRequested f0
  if nr ≤ f0.acked_tslots then
    { s with f := f0 }
  else
    { f := { f0 with requested_tslots := nr }, inflight := s.inflight ++ [nr] }

/-- handle_ack for one AREQ entry of value `v`:
`acked_tslots := max acked_tslots v`. -/
def opAck (s : ReqState) (v : Nat) : ReqState :=
  { f :=
      if s.f.acked_tslots < v then { s.f with acked_tslots := v } else s.f,
    inflight := s.inflight.erase v }

/-- handle_neg_ack for one AREQ entry of value `v`: if the value is not
already acked, enqueue the flow on the retransmit queue
(flowqueue_enqueue_retransmit leaves a retransmit-queued flow alone and
moves any other flow to the retransmit queue). -/
def opNack (s : ReqState) (v : Nat) : ReqState :=
  { f :=
      if v ≤ s.f.acked_tslots then s.f
      else { s.f with state := .retransmitQueue },
    inflight := s.inflight.erase v }

/-- One entry of `pkt->areq[]` in a fpproto_pktdesc. -/
structure AreqEntry where
  src_dst_key : Nat
  tslots : Nat
deriving DecidableEq

/-- The AREQ-assembly loop of send_request: dequeue flows while the packet
has room (`n_areq < FASTPASS_PKT_MAX_AREQ`) and the flow queue is
nonempty; a dequeued flow whose `new_requested` is already acked is
skipped (stat queued_flow_already_acked), otherwise
`{src_dst_key, new_requested}` is appended.  (The loop also stores
`new_requested` into `f->requested_tslots`; each flow is dequeued at most
once, so the emitted entries do not depend on that write.) -/
def send_request_loop : Nat → List FpFlow → List AreqEntry
  | _, [] => []
  | n_areq, f :: queue =>
    if n_areq < FASTPASS_PKT_MAX_AREQ then
      if sendNewRequested f ≤ f.acked_tslots then
        send_request_loop n_areq queue
      else
        ⟨f.src_dst_key, sendNewRequested f⟩ :: send_request_loop (n_areq + 1) queue
    else []

def initReqState (key : Nat) : ReqState :=
  { f := ⟨key, 0, 0, 0, 0, .unqueued⟩, inflight := [] }

/-- States of one destination reachable through the scheduler operations:
packet enqueue, request assembly (only on a queued flow), timeslot
release, out-of-bounds allocation handling, and ack/nack of a committed
request value. -/
inductive ReachableReq (key : Nat) : ReqState → Prop where
  | init : ReachableReq key (initReqState key)
  | enqueue {s} : ReachableReq key s → ReachableReq key (opEnqueue s)
  | send {s} : ReachableReq key s → s.f.state ≠ .unqueued →
      ReachableReq key (opSendRequest s)
  | allocRelease {s} : ReachableReq key s → ReachableReq key (opAllocRelease s)
  | outOfBounds {s} : ReachableReq key s → ReachableReq key (opOutOfBounds s)
  | ack {s v} : ReachableReq key s → v ∈ s.inflight →
      ReachableReq key (opAck s v)
  | nack {s v} : ReachableReq key s → v ∈ s.inflight →
      ReachableReq key (opNack s v)

/-- The counter relations that actually are preserved by every operation,
strengthened with the facts about in-flight request values needed for the
induction. -/
def ReqInv (s : ReqState) : Prop :=
  s.f.alloc_tslots ≤ s.f.demand_tslots ∧
  s.f.requested_tslots ≤ s.f.demand_tslots ∧
  s.f.acked_tslots ≤ s.f.requested_tslots ∧
  s.f.requested_tslots ≤ s.f.alloc_tslots + (FASTPASS_REQUEST_WINDOW_SIZE - 1) ∧
  ∀ v ∈ s.inflight, v ≤ s.f.requested_tslots

/-! ## ALLOC timeslot reconstruction (handle_alloc, lines 803-804)

`full_tslot = q->horizon.timeslot - (1ULL << 18)` in u64 arithmetic,
then `full_tslot += ((u32)base_tslot - (u32)full_tslot) & 0xFFFFF`.
u64 values are naturals mod 2^64; the u32 casts and the 32-bit
subtraction are modelled with explicit mod 2^32. -/

def fullTslotReconstruct (current base_tslot : Nat) : Nat :=
  let full0 := (current + 2 ^ 64 - 2 ^ 18) % 2 ^ 64
  let delta :=
    ((base_tslot % 2 ^ 32 + 2 ^ 32 - full0 % 2 ^ 32) % 2 ^ 32) &&& 0xFFFFF
  (full0 + delta) % 2 ^ 64

/-! ## Scheduler state acted on by handle_alloc

`flows` is the flow table keyed by `src_dst_key` (fpq_lookup with
create_if_missing = false); the aggregate counters and the statistics are
the `fp_sched_data` fields the ALLOC path touches.  `schedule` is the
64-entry array `q->schedule[]`, `horizon_mask` / `horizon_timeslot` the
`fp_timeslot_horizon`. -/

structure SchedState where
  flows : List FpFlow
  demand_tslots : Nat
  alloc_tslots : Nat
  unwanted_alloc : Nat
  alloc_too_late : Nat
  alloc_premature : Nat
  flow_not_found_oob : Nat
  horizon_timeslot : Nat
  horizon_mask : Nat
  schedule : List Nat
deriving DecidableEq

/-- fpq_lookup with create_if_missing = false. -/
def lookupFlow (flows : List FpFlow) (key : Nat) : Option FpFlow :=
  flows.find? (fun f => f.src_dst_key == key)

/-- Write back the updated flow (the C code mutates it in place). -/
def updateFlow : List FpFlow → Nat → FpFlow → List FpFlow
  | [], _, _ => []
  | g :: rest, key, f =>
    if g.src_dst_key = key then f :: rest else g :: updateFlow rest key f

/-- handle_out_of_bounds_allocation: looks the flow up; a missing flow
only counts flow_not_found_oob; otherwise flow_inc_demand then
flow_inc_alloc run, with their aggregate-counter updates. -/
def handle_out_of_bounds_allocation (q : SchedState) (key : Nat) :
    SchedState :=
  match lookupFlow q.flows key with
  | none => { q with flow_not_found_oob := q.flow_not_found_oob + 1 }
  | some f =>
      let r := flow_inc_alloc (flow_inc_demand f)
      { q with
        flows := updateFlow q.flows key r.1,
        demand_tslots := q.demand_tslots + 1,
        alloc_tslots := q.alloc_tslots + (if r.2 then 0 else 1),
        unwanted_alloc := q.unwanted_alloc + (if r.2 then 1 else 0) }

/-- horizon_set: `mask |= 1ULL << (timeslot - h->timeslot)` (u64) and
`schedule[timeslot % FASTPASS_HORIZON] = src_dst_key`. -/
def horizon_set (q : SchedState) (timeslot src_dst_key : Nat) : SchedState :=
  { q with
    horizon_mask :=
      (q.horizon_mask ||| (1 <<< (timeslot - q.horizon_timeslot))) % 2 ^ 64,
    schedule := q.schedule.set (timeslot % FASTPASS_HORIZON) src_dst_key }

/-- One iteration of the descriptor walk in handle_alloc, for descriptor
byte `spec`, threading (full_tslot, scheduler state).  `none` models the
early `return` on an out-of-bounds destination index.  A byte with
`dst_index = spec >> 4` zero skips `16 * (1 + (spec & 0xF))` timeslots;
otherwise the position advances by `1 + (spec & 0xF)` and the slot is
allocated to `dst[dst_index - 1]`, or handed to
handle_out_of_bounds_allocation with the alloc_too_late /
alloc_premature statistic bumped when it falls outside
`(horizon.timeslot, horizon.timeslot + FASTPASS_HORIZON)`. -/
def allocStep (dst : List Nat) (spec : Nat) (st : Nat × SchedState) :
    Option (Nat × SchedState) :=
  let dst_ind := spec >>> 4
  if dst_ind = 0 then
    some ((st.1 + 16 * (1 + (spec &&& 0xF))) % 2 ^ 64, st.2)
  else if dst.length < dst_ind then
    none
  else
    let full1 := (st.1 + 1 + (spec &&& 0xF)) % 2 ^ 64
    let d := dst.getD (dst_ind - 1) 0
    if full1 ≤ st.2.horizon_timeslot then
      some (full1, handle_out_of_bounds_allocation
        { st.2 with alloc_too_late := st.2.alloc_too_late + 1 } d)
    else if st.2.horizon_timeslot + FASTPASS_HORIZON ≤ full1 then
      some (full1, handle_out_of_bounds_allocation
        { st.2 with alloc_premature := st.2.alloc_premature + 1 } d)
    else
      some (full1, horizon_set st.2 full1 d)

/-- The full descriptor walk (`for i in 0..n_tslots`), stopping at the
state reached so far when a descriptor aborts the payload. -/
def allocLoop (dst : List Nat) : List Nat → Nat × SchedState → Nat × SchedState
  | [], st => st
  | spec :: rest, st =>
    match allocStep dst spec st with
    | none => st
    | some st1 => allocLoop dst rest st1

/-! ## Flow request / retransmit queues (claim C7)

`unreq` and `retrans` are the two FIFO lists `q->unreq_flows` and
`q->retrans_flows` holding flow keys; `st` gives the state
field of each flow. -/

structure FlowQueues where
  unreq : List Nat
  retrans : List Nat
  st : Nat → FlowState

/-- flowqueue_enqueue_request: a flow already in the retransmit queue is
left alone (it has higher priority); otherwise the flow is appended to
the request queue and marked FLOW_REQUEST_QUEUE.  The source has
BUG_ON(state == FLOW_REQUEST_QUEUE); callers guarantee it, and the
reachability relation below carries that precondition. -/
def flowqueue_enqueue_request (s : FlowQueues) (k : Nat) : FlowQueues :=
  if s.st k = .retransmitQueue then s
  else
    { unreq := s.unreq ++ [k], retrans := s.retrans,
      st := fun j => if j = k then .requestQueue else s.st j }

/-- flowqueue_enqueue_retransmit: a retransmit-queued flow is left alone;
a request-queued flow is moved (list_move_tail) to the retransmit queue;
an unqueued flow is appended; in both cases the state becomes
FLOW_RETRANSMIT_QUEUE. -/
def flowqueue_enqueue_retransmit (s : FlowQueues) (k : Nat) : FlowQueues :=
  if s.st k = .retransmitQueue then s
  else if s.st k = .requestQueue then
    { unreq := s.unreq.erase k, retrans := s.retrans ++ [k],
      st := fun j => if j = k then .retransmitQueue else s.st j }
  else
    { unreq := s.unreq, retrans := s.retrans ++ [k],
      st := fun j => if j = k then .retransmitQueue else s.st j }

/-- flowqueue_dequeue: takes the head of the retransmit queue if any,
else the head of the request queue, and marks it FLOW_UNQUEUED.  Both
queues empty is a kernel BUG(); the reachability relation only invokes
dequeue on a nonempty state, and we return the state unchanged there. -/
def flowqueue_dequeue (s : FlowQueues) : Nat × FlowQueues :=
  match s.retrans with
  | k :: rest =>
      (k, { unreq := s.unreq, retrans := rest,
            st := fun j => if j = k then .unqueued else s.st j })
  | [] =>
      match s.unreq with
      | k :: rest =>
          (k, { unreq := rest, retrans := s.retrans,
                st := fun j => if j = k then .unqueued else s.st j })
      | [] => (0, s)

def initFlowQueues : FlowQueues :=
  { unreq := [], retrans := [], st := fun _ => .unqueued }

/-- Queue states reachable through the three queue operations, each under
the precondition its kernel BUG_ON / BUG enforces. -/
inductive ReachableQ : FlowQueues → Prop where
  | init : ReachableQ initFlowQueues
  | enqueueRequest {s k} : ReachableQ s → s.st k ≠ .requestQueue →
      ReachableQ (flowqueue_enqueue_request s k)
  | enqueueRetransmit {s k} : ReachableQ s →
      ReachableQ (flowqueue_enqueue_retransmit s k)
  | dequeue {s} : ReachableQ s → s.unreq ++ s.retrans ≠ [] →
      ReachableQ (flowqueue_dequeue s).2

/-- The queue/state correspondence: both queues duplicate-free and
disjoint, and the `state` field is the exact ownership token. -/
def QueuesInv (s : FlowQueues) : Prop :=
  s.unreq.Nodup ∧ s.retrans.Nodup ∧
  (∀ k, ¬(k ∈ s.unreq ∧ k ∈ s.retrans)) ∧
  (∀ k, (s.st k = .requestQueue ↔ k ∈ s.unreq) ∧
    (s.st k = .retransmitQueue ↔ k ∈ s.retrans))

/-! ## fp_ring (src/src/graph-algo/fp_ring.h, NO_DPDK variant)

`head` and `tail` are u32 fields that wrap; the embedding carries the
unbounded operation counts and applies `% 2^32` at each point the code
reads the stored 32-bit value (the equality tests and the `& mask`
indexing), which is observationally identical.  `elem` is the
num_elems-slot array, `none` marking never-written slots. -/

def ENOBUFS : Int := 105

def ENOENT : Int := 2

structure FpRing (α : Type) where
  head : Nat
  tail : Nat
  mask : Nat
  elem : List (Option α)
deriving DecidableEq

/-- fp_ring_create: `mask = num_elems - 1`, `head = tail = 0`. -/
def fp_ring_create (α : Type) (num_elems : Nat) : FpRing α :=
  { head := 0, tail := 0, mask := num_elems - 1,
    elem := List.replicate num_elems none }

/-- fp_ring_enqueue: full when `tail == head + mask` (u32 compare);
otherwise stores the element at `tail & mask` and increments tail. -/
def fp_ring_enqueue {α : Type} (r : FpRing α) (e : α) : Int × FpRing α :=
  if r.tail % 2 ^ 32 = (r.head % 2 ^ 32 + r.mask) % 2 ^ 32 then
    (-ENOBUFS, r)
  else
    (0, { r with
      elem := r.elem.set ((r.tail % 2 ^ 32) &&& r.mask) (some e),
      tail := r.tail + 1 })

/-- fp_ring_dequeue: empty when `head == tail` (u32 compare); otherwise
returns `elem[head & mask]` and increments head. -/
def fp_ring_dequeue {α : Type} (r : FpRing α) : Int × Option α × FpRing α :=
  if r.head % 2 ^ 32 = r.tail % 2 ^ 32 then
    (-ENOENT, none, r)
  else
    (0, r.elem.getD ((r.head % 2 ^ 32) &&& r.mask) none,
      { r with head := r.head + 1 })

/-- The ring contents in FIFO order, oldest first: the slots from `head`
(inclusive) to `tail` (exclusive). -/
def ringList {α : Type} (r : FpRing α) : List (Option α) :=
  (List.range (r.tail - r.head)).map
    (fun i => r.elem.getD (((r.head + i) % 2 ^ 32) &&& r.mask) none)

/-! ## Theorems -/

theorem and_fffff_eq_mod (x : Nat) : x &&& 0xFFFFF = x % 1048576 := by
  have h := Nat.and_pow_two_sub_one_eq_mod x 20
  norm_num at h
  exact h

theorem flow_inc_demand_fields (f : FpFlow) :
    (flow_inc_demand f).demand_tslots = f.demand_tslots + 1 ∧
    (flow_inc_demand f).requested_tslots = f.requested_tslots ∧
    (flow_inc_demand f).acked_tslots = f.acked_tslots ∧
    (flow_inc_demand f).alloc_tslots = f.alloc_tslots := by
  simp only [flow_inc_demand]
  split_ifs <;> simp

theorem flow_inc_alloc_cases (f : FpFlow) :
    (f.alloc_tslots = f.demand_tslots → flow_inc_alloc f = (f, true)) ∧
    (f.alloc_tslots ≠ f.demand_tslots →
      (flow_inc_alloc f).1.demand_tslots = f.demand_tslots ∧
      (flow_inc_alloc f).1.requested_tslots = f.requested_tslots ∧
      (flow_inc_alloc f).1.acked_tslots = f.acked_tslots ∧
      (flow_inc_alloc f).1.alloc_tslots = f.alloc_tslots + 1 ∧
      (flow_inc_alloc f).2 = false) := by
  constructor
  · intro h
    simp [flow_inc_alloc, h]
  · intro h
    simp only [flow_inc_alloc, if_neg h]
    split_ifs <;> simp

theorem reqInv_reachable {key : Nat} {s : ReqState}
    (h : ReachableReq key s) : ReqInv s := by
  induction h with
  | init =>
      refine ⟨Nat.le_refl 0, Nat.le_refl 0, Nat.le_refl 0, Nat.zero_le _, ?_⟩
      intro v hv; cases hv
  | @enqueue s _ ih =>
      obtain ⟨h1, h2, h3, h4, h5⟩ := ih
      obtain ⟨hd, hr, ha, hal⟩ := flow_inc_demand_fields s.f
      unfold ReqInv opEnqueue
      dsimp only
      exact ⟨by omega, by omega, by omega, by omega,
        fun v hv => hr ▸ h5 v hv⟩
  | @send s _ _ ih =>
      obtain ⟨h1, h2, h3, h4, h5⟩ := ih
      unfold opSendRequest
      simp only [sendNewRequested]
      split
      · exact ⟨h1, h2, h3, h4, h5⟩
      · rename_i hskip
        push_neg at hskip
        refine ⟨h1, min_le_left _ _, Nat.le_of_lt hskip, min_le_right _ _, ?_⟩
        intro v hv
        rcases List.mem_append.1 hv with hv | hv
        · exact le_trans (h5 v hv) (le_min h2 h4)
        · simp only [List.mem_singleton] at hv
          exact le_of_eq hv
  | @allocRelease s _ ih =>
      obtain ⟨h1, h2, h3, h4, h5⟩ := ih
      by_cases hsat : s.f.alloc_tslots = s.f.demand_tslots
      · have heq := (flow_inc_alloc_cases s.f).1 hsat
        exact ⟨by rw [opAllocRelease, heq]; exact h1,
          by rw [opAllocRelease, heq]; exact h2,
          by rw [opAllocRelease, heq]; exact h3,
          by rw [opAllocRelease, heq]; exact h4,
          by rw [opAllocRelease, heq]; exact h5⟩
      · obtain ⟨hd, hr, ha, hal, _⟩ := (flow_inc_alloc_cases s.f).2 hsat
        unfold ReqInv opAllocRelease
        dsimp only
        exact ⟨by omega, by omega, by omega, by omega,
          fun v hv => hr ▸ h5 v hv⟩
  | @outOfBounds s _ ih =>
      obtain ⟨h1, h2, h3, h4, h5⟩ := ih
      obtain ⟨hd, hr, ha, hal⟩ := flow_inc_demand_fields s.f
      have hne : (flow_inc_demand s.f).alloc_tslots ≠
          (flow_inc_demand s.f).demand_tslots := by omega
      obtain ⟨hd2, hr2, ha2, hal2, _⟩ :=
        (flow_inc_alloc_cases (flow_inc_demand s.f)).2 hne
      unfold ReqInv opOutOfBounds
      dsimp only
      exact ⟨by omega, by omega, by omega, by omega,
        fun v hv => hr2 ▸ hr ▸ h5 v hv⟩
  | @ack s v _ hv ih =>
      obtain ⟨h1, h2, h3, h4, h5⟩ := ih
      have hvr := h5 _ hv
      unfold opAck
      split
      · exact ⟨h1, h2, hvr, h4,
          fun w hw => h5 w (List.mem_of_mem_erase hw)⟩
      · exact ⟨h1, h2, h3, h4,
          fun w hw => h5 w (List.mem_of_mem_erase hw)⟩
  | @nack s v _ hv ih =>
      obtain ⟨h1, h2, h3, h4, h5⟩ := ih
      unfold opNack
      split <;>
        exact ⟨h1, h2, h3, h4,
          fun w hw => h5 w (List.mem_of_mem_erase hw)⟩

/-- Claim C1 (amended): at every state of a destination reachable through
the scheduler operations, `alloc_tslots <= demand_tslots`,
`requested_tslots <= demand_tslots` and
`acked_tslots <= requested_tslots` hold.  (The chain
`alloc <= requested` claimed by the spec does not hold, see the
counterexample, and this version of the scheduler keeps no per-flow
`used` counter.) -/
theorem c1_counter_invariants {key : Nat} {s : ReqState}
    (h : ReachableReq key s) :
    s.f.alloc_tslots ≤ s.f.demand_tslots ∧
    s.f.requested_tslots ≤ s.f.demand_tslots ∧
    s.f.acked_tslots ≤ s.f.requested_tslots := by
  obtain ⟨h1, h2, h3, _, _⟩ := reqInv_reachable h
  exact ⟨h1, h2, h3⟩

/-- Witness for C1 at a concrete reachable state (one enqueue followed by
one request assembly). -/
theorem c1_counter_invariants_witness :
    ((opSendRequest (opEnqueue (initReqState 7))).f.alloc_tslots ≤
      (opSendRequest (opEnqueue (initReqState 7))).f.demand_tslots) ∧
    ((opSendRequest (opEnqueue (initReqState 7))).f.requested_tslots ≤
      (opSendRequest (opEnqueue (initReqState 7))).f.demand_tslots) ∧
    ((opSendRequest (opEnqueue (initReqState 7))).f.acked_tslots ≤
      (opSendRequest (opEnqueue (initReqState 7))).f.requested_tslots) :=
  c1_counter_invariants
    (ReachableReq.send (ReachableReq.enqueue ReachableReq.init) (by decide))

/-- Counterexample to claim C1 as stated: after an out-of-bounds
allocation on a fresh flow (reachable in one step), the flow has
`alloc_tslots = 1 > 0 = requested_tslots`, violating
`alloc <= requested`. -/
theorem c1_alloc_le_requested_fails :
    ReachableReq 7 (opOutOfBounds (initReqState 7)) ∧
    ¬ ((opOutOfBounds (initReqState 7)).f.alloc_tslots ≤
        (opOutOfBounds (initReqState 7)).f.requested_tslots) :=
  ⟨ReachableReq.outOfBounds ReachableReq.init, by decide⟩

/-- Claim C6 (amended): when the u64 arithmetic does not wrap around
(`2^18 <= current` and `current - 2^18 + 2^20 <= 2^64`), the
reconstructed full timeslot is the unique value congruent to the 20-bit
`base_tslot` modulo 2^20 inside
`[current - 2^18, current - 2^18 + 2^20)`.  The wraparound bounds are
needed: see the counterexample at current = 0. -/
theorem c6_reconstruction_unique (current base : Nat)
    (hb : base < 2 ^ 20) (hlo : 2 ^ 18 ≤ current)
    (hhi : current + 2 ^ 20 ≤ 2 ^ 64 + 2 ^ 18) :
    fullTslotReconstruct current base % 2 ^ 20 = base ∧
    current - 2 ^ 18 ≤ fullTslotReconstruct current base ∧
    fullTslotReconstruct current base < current - 2 ^ 18 + 2 ^ 20 ∧
    ∀ y, current - 2 ^ 18 ≤ y → y < current - 2 ^ 18 + 2 ^ 20 →
      y % 2 ^ 20 = base → y = fullTslotReconstruct current base := by
  have e64 : (2 : Nat) ^ 64 = 18446744073709551616 := by norm_num
  have e32 : (2 : Nat) ^ 32 = 4294967296 := by norm_num
  have e20 : (2 : Nat) ^ 20 = 1048576 := by norm_num
  have e18 : (2 : Nat) ^ 18 = 262144 := by norm_num
  simp only [fullTslotReconstruct, and_fffff_eq_mod]
  rw [e64, e32, e20, e18] at *
  refine ⟨by omega, by omega, by omega, ?_⟩
  intro y hy1 hy2 hy3
  omega

/-- Witness for C6 at concrete values current = 2^20, base = 7: the
reconstruction lands on the unique in-window timeslot with low bits 7. -/
theorem c6_reconstruction_unique_witness :
    fullTslotReconstruct (2 ^ 20) 7 % 2 ^ 20 = 7 ∧
    2 ^ 20 - 2 ^ 18 ≤ fullTslotReconstruct (2 ^ 20) 7 ∧
    fullTslotReconstruct (2 ^ 20) 7 < 2 ^ 20 - 2 ^ 18 + 2 ^ 20 ∧
    ∀ y, 2 ^ 20 - 2 ^ 18 ≤ y → y < 2 ^ 20 - 2 ^ 18 + 2 ^ 20 →
      y % 2 ^ 20 = 7 → y = fullTslotReconstruct (2 ^ 20) 7 :=
  c6_reconstruction_unique (2 ^ 20) 7 (by norm_num) (by norm_num)
    (by norm_num)

/-- Counterexample to claim C6 as stated for every current timeslot: at
current = 0 and base_tslot = 0 the code computes full = 0 (the u64
subtraction wraps), which does not lie in the claimed interval starting
at current - 2^18 = 2^64 - 2^18 in u64 arithmetic. -/
theorem c6_reconstruction_wraps_at_zero :
    fullTslotReconstruct 0 0 = 0 ∧
    (0 + 2 ^ 64 - 2 ^ 18) % 2 ^ 64 = 2 ^ 64 - 2 ^ 18 ∧
    ¬ ((2 : Nat) ^ 64 - 2 ^ 18 ≤ fullTslotReconstruct 0 0) := by
  refine ⟨?_, by norm_num, ?_⟩ <;>
    simp only [fullTslotReconstruct, and_fffff_eq_mod] <;> norm_num

theorem allocStep_abort (dst : List Nat) (spec : Nat) (st : Nat × SchedState)
    (h : dst.length < spec >>> 4) : allocStep dst spec st = none := by
  simp only [allocStep]
  rw [if_neg (by omega), if_pos h]

/-- Claim C9: a descriptor byte whose destination index exceeds the
number of destinations in the payload aborts the walk: the remaining
descriptor bytes are never processed, so the final state (horizon bits,
per-flow and aggregate counters) is that of the prefix up to the
offending byte. -/
theorem c9_oob_dst_aborts_payload (dst : List Nat) (pre rest : List Nat)
    (b : Nat) (hb : dst.length < b >>> 4) (st : Nat × SchedState) :
    allocLoop dst (pre ++ b :: rest) st = allocLoop dst (pre ++ [b]) st := by
  induction pre generalizing st with
  | nil =>
      simp only [List.nil_append, allocLoop, allocStep_abort dst b st hb]
  | cons p pre ih =>
      simp only [List.cons_append, allocLoop]
      cases hstep : allocStep dst p st with
      | none => rfl
      | some st1 => exact ih st1

/-- Witness for C9: a two-destination payload with an offending third
byte (dst index 3 > 2): the walk ignores the trailing bytes. -/
theorem c9_oob_dst_aborts_payload_witness :
    allocLoop [4, 5] ([17, 33] ++ 49 :: [18, 19, 20])
        (0, ⟨[], 0, 0, 0, 0, 0, 0, 1000, 0, List.replicate 64 0⟩) =
      allocLoop [4, 5] ([17, 33] ++ [49])
        (0, ⟨[], 0, 0, 0, 0, 0, 0, 1000, 0, List.replicate 64 0⟩) :=
  c9_oob_dst_aborts_payload [4, 5] [17, 33] [18, 19, 20] 49 (by decide)
    (0, ⟨[], 0, 0, 0, 0, 0, 0, 1000, 0, List.replicate 64 0⟩)

/-- Claim C3 (amended): a descriptor byte with zero destination index
advances the position by `16 * (1 + (flags & 0xF))` timeslots (not
`1 + flags` as the spec states) and changes nothing else; a byte with a
nonzero, in-bounds destination index advances the position by
`1 + (flags & 0xF)` and, when the resulting timeslot lies strictly
inside `(current, current + FASTPASS_HORIZON)`, allocates it to
`dst[dst_index - 1]` via horizon_set. -/
theorem c3_descriptor_byte_semantics (dst : List Nat) (b full : Nat)
    (q : SchedState) :
    (b >>> 4 = 0 →
      allocStep dst b (full, q) =
        some ((full + 16 * (1 + (b &&& 0xF))) % 2 ^ 64, q)) ∧
    (b >>> 4 ≠ 0 → b >>> 4 ≤ dst.length →
      q.horizon_timeslot < (full + 1 + (b &&& 0xF)) % 2 ^ 64 →
      (full + 1 + (b &&& 0xF)) % 2 ^ 64 <
          q.horizon_timeslot + FASTPASS_HORIZON →
      allocStep dst b (full, q) =
        some ((full + 1 + (b &&& 0xF)) % 2 ^ 64,
          horizon_set q ((full + 1 + (b &&& 0xF)) % 2 ^ 64)
            (dst.getD (b >>> 4 - 1) 0))) := by
  constructor
  · intro h0
    simp only [allocStep]
    rw [if_pos h0]
  · intro h0 hbound hlo hhi
    simp only [allocStep]
    rw [if_neg h0, if_neg (by omega), if_neg (by omega), if_neg (by omega)]

/-- Witness for C3 at concrete bytes: 0x05 (skip) advances by 96; 0x13
(dst index 1, flags 3) advances by 4 and fills the horizon slot. -/
theorem c3_descriptor_byte_semantics_witness :
    allocStep [5] 5 (10, ⟨[], 0, 0, 0, 0, 0, 0, 8, 0, List.replicate 64 0⟩) =
      some ((10 + 16 * (1 + (5 &&& 0xF))) % 2 ^ 64,
        ⟨[], 0, 0, 0, 0, 0, 0, 8, 0, List.replicate 64 0⟩) ∧
    allocStep [5] 19 (10, ⟨[], 0, 0, 0, 0, 0, 0, 8, 0, List.replicate 64 0⟩) =
      some ((10 + 1 + (19 &&& 0xF)) % 2 ^ 64,
        horizon_set ⟨[], 0, 0, 0, 0, 0, 0, 8, 0, List.replicate 64 0⟩
          ((10 + 1 + (19 &&& 0xF)) % 2 ^ 64) ([5].getD (19 >>> 4 - 1) 0)) := by
  constructor
  · exact (c3_descriptor_byte_semantics [5] 5 10
      ⟨[], 0, 0, 0, 0, 0, 0, 8, 0, List.replicate 64 0⟩).1 (by decide)
  · exact (c3_descriptor_byte_semantics [5] 19 10
      ⟨[], 0, 0, 0, 0, 0, 0, 8, 0, List.replicate 64 0⟩).2 (by decide)
      (by decide) (by decide) (by decide)

/-- Counterexample to claim C3 as stated: the skip byte 0x00 advances the
position by 16 timeslots, not by 1 + (0 & 0xF) = 1. -/
theorem c3_skip_advances_sixteen_fold :
    allocStep [] 0 (0, ⟨[], 0, 0, 0, 0, 0, 0, 1000, 0, List.replicate 64 0⟩) =
      some (16, ⟨[], 0, 0, 0, 0, 0, 0, 1000, 0, List.replicate 64 0⟩) ∧
    (16 : Nat) ≠ 1 + (0 &&& 0xF) := by
  constructor
  · decide
  · decide

theorem oob_flow_effect (f : FpFlow)
    (had : f.alloc_tslots ≤ f.demand_tslots)
    (hrd : f.requested_tslots ≤ f.demand_tslots) :
    ((flow_inc_alloc (flow_inc_demand f)).1.demand_tslots = f.demand_tslots + 1) ∧
    ((flow_inc_alloc (flow_inc_demand f)).1.alloc_tslots = f.alloc_tslots + 1) ∧
    ((flow_inc_alloc (flow_inc_demand f)).1.requested_tslots = f.requested_tslots) ∧
    ((flow_inc_alloc (flow_inc_demand f)).1.acked_tslots = f.acked_tslots) ∧
    ((flow_inc_alloc (flow_inc_demand f)).1.src_dst_key = f.src_dst_key) ∧
    ((flow_inc_alloc (flow_inc_demand f)).2 = false) ∧
    (f.state ≠ .unqueued → (flow_inc_alloc (flow_inc_demand f)).1.state = f.state) ∧
    (f.state = .unqueued → f.requested_tslots ≤ f.alloc_tslots + 512 →
      (flow_inc_alloc (flow_inc_demand f)).1.state = .requestQueue) ∧
    (f.state = .unqueued → f.alloc_tslots + 513 < f.requested_tslots →
      (flow_inc_alloc (flow_inc_demand f)).1.state = .unqueued) := by
  obtain ⟨k, d, r, ak, al, st⟩ := f
  simp only [flow_inc_demand, flow_inc_alloc, flow_is_below_watermark,
    FASTPASS_REQUEST_LOW_WATERMARK] at *
  norm_num at *
  split_ifs <;> cases st <;> simp_all [enqueueRequestState] <;> omega

theorem lookupFlow_updateFlow (key : Nat) (f f1 : FpFlow)
    (hkey : f1.src_dst_key = f.src_dst_key) :
    ∀ flows : List FpFlow, lookupFlow flows key = some f →
      lookupFlow (updateFlow flows key f1) key = some f1 := by
  intro flows
  induction flows with
  | nil => intro h; simp [lookupFlow] at h
  | cons g rest ih =>
      intro h
      have hfkey : f.src_dst_key = key := by
        simpa using List.find?_some h
      by_cases hg : g.src_dst_key = key
      · have hf1 : (f1.src_dst_key == key) = true := by
          simp [hkey, hfkey]
        simp [updateFlow, if_pos hg, lookupFlow, List.find?_cons, hf1]
      · have hgb : (g.src_dst_key == key) = false := by
          simp [hg]
        simp only [lookupFlow, List.find?_cons, hgb] at h ⊢
        simp only [updateFlow, if_neg hg, List.find?_cons, hgb]
        exact ih h

/-- Claim C4 (amended): a descriptor slot whose reconstructed timeslot is
not in the future (`full_tslot <= horizon.timeslot`; the code has no
miss_threshold, so in particular every slot earlier than
current - 16 is handled this way) bumps alloc_too_late, sets no horizon
bit, touches no schedule entry, and increments the demand
and alloc counters (and the aggregates); the flow is re-enqueued on the
request queue only when it was unqueued and below the request low
watermark — a flow with `requested > alloc + 513` stays unqueued. -/
theorem c4_too_late_slot (dst : List Nat) (b full : Nat) (q : SchedState)
    (f : FpFlow)
    (hind : b >>> 4 ≠ 0) (hbound : b >>> 4 ≤ dst.length)
    (hlate : (full + 1 + (b &&& 0xF)) % 2 ^ 64 ≤ q.horizon_timeslot)
    (hf : lookupFlow q.flows (dst.getD (b >>> 4 - 1) 0) = some f)
    (had : f.alloc_tslots ≤ f.demand_tslots)
    (hrd : f.requested_tslots ≤ f.demand_tslots) :
    ∃ q1,
      allocStep dst b (full, q) =
        some ((full + 1 + (b &&& 0xF)) % 2 ^ 64, q1) ∧
      q1.alloc_too_late = q.alloc_too_late + 1 ∧
      q1.horizon_mask = q.horizon_mask ∧
      q1.schedule = q.schedule ∧
      q1.demand_tslots = q.demand_tslots + 1 ∧
      q1.alloc_tslots = q.alloc_tslots + 1 ∧
      ∃ f1, lookupFlow q1.flows (dst.getD (b >>> 4 - 1) 0) = some f1 ∧
        f1.demand_tslots = f.demand_tslots + 1 ∧
        f1.alloc_tslots = f.alloc_tslots + 1 ∧
        f1.requested_tslots = f.requested_tslots ∧
        (f.state ≠ .unqueued → f1.state = f.state) ∧
        (f.state = .unqueued → f.requested_tslots ≤ f.alloc_tslots + 512 →
          f1.state = .requestQueue) ∧
        (f.state = .unqueued → f.alloc_tslots + 513 < f.requested_tslots →
          f1.state = .unqueued) := by
  obtain ⟨hd, ha, hr, hak, hk, hunw, hs1, hs2, hs3⟩ := oob_flow_effect f had hrd
  have hoob : handle_out_of_bounds_allocation
      { q with alloc_too_late := q.alloc_too_late + 1 }
      (dst.getD (b >>> 4 - 1) 0) =
      { q with
        flows := updateFlow q.flows (dst.getD (b >>> 4 - 1) 0)
          (flow_inc_alloc (flow_inc_demand f)).1,
        demand_tslots := q.demand_tslots + 1,
        alloc_tslots := q.alloc_tslots + 1,
        alloc_too_late := q.alloc_too_late + 1 } := by
    simp only [handle_out_of_bounds_allocation]
    split
    · rename_i hnone
      rw [hf] at hnone
      cases hnone
    · rename_i f0 heq
      rw [hf] at heq
      injection heq with heq
      subst heq
      simp only [hunw]
      norm_num
  have hstep : allocStep dst b (full, q) =
      some ((full + 1 + (b &&& 0xF)) % 2 ^ 64,
        handle_out_of_bounds_allocation
          { q with alloc_too_late := q.alloc_too_late + 1 }
          (dst.getD (b >>> 4 - 1) 0)) := by
    simp only [allocStep]
    rw [if_neg hind, if_neg (by omega)]
    rw [if_pos hlate]
  refine ⟨{ q with
      flows := updateFlow q.flows (dst.getD (b >>> 4 - 1) 0)
        (flow_inc_alloc (flow_inc_demand f)).1,
      demand_tslots := q.demand_tslots + 1,
      alloc_tslots := q.alloc_tslots + 1,
      alloc_too_late := q.alloc_too_late + 1 },
    by rw [hstep, hoob], rfl, rfl, rfl, rfl, rfl, ?_⟩
  refine ⟨(flow_inc_alloc (flow_inc_demand f)).1, ?_, hd, ha, hr, hs1, hs2, hs3⟩
  exact lookupFlow_updateFlow _ f _ hk _ hf

/-- Witness for C4: a too-late slot for the single flow (demand 9,
requested 9, acked 0, alloc 2, unqueued): counters advance and the flow
is re-enqueued (it is below the watermark). -/
theorem c4_too_late_slot_witness :
    ∃ q1,
      allocStep [3] 16
          (99, ⟨[⟨3, 9, 9, 0, 2, .unqueued⟩], 0, 0, 0, 0, 0, 0, 2000, 0,
            List.replicate 64 0⟩) =
        some ((99 + 1 + (16 &&& 0xF)) % 2 ^ 64, q1) ∧
      q1.alloc_too_late = 0 + 1 ∧
      q1.horizon_mask = 0 ∧
      q1.schedule = List.replicate 64 0 ∧
      q1.demand_tslots = 0 + 1 ∧
      q1.alloc_tslots = 0 + 1 ∧
      ∃ f1, lookupFlow q1.flows ([3].getD (16 >>> 4 - 1) 0) = some f1 ∧
        f1.demand_tslots = 9 + 1 ∧
        f1.alloc_tslots = 2 + 1 ∧
        f1.requested_tslots = 9 ∧
        ((⟨3, 9, 9, 0, 2, .unqueued⟩ : FpFlow).state ≠ .unqueued →
          f1.state = (⟨3, 9, 9, 0, 2, .unqueued⟩ : FpFlow).state) ∧
        ((⟨3, 9, 9, 0, 2, .unqueued⟩ : FpFlow).state = .unqueued → 9 ≤ 2 + 512 →
          f1.state = .requestQueue) ∧
        ((⟨3, 9, 9, 0, 2, .unqueued⟩ : FpFlow).state = .unqueued → 2 + 513 < 9 →
          f1.state = .unqueued) :=
  c4_too_late_slot [3] 16 99
    ⟨[⟨3, 9, 9, 0, 2, .unqueued⟩], 0, 0, 0, 0, 0, 0, 2000, 0,
      List.replicate 64 0⟩
    ⟨3, 9, 9, 0, 2, .unqueued⟩ (by decide) (by decide) (by decide) (by decide)
    (by decide) (by decide)

/-- Counterexample to claim C4 as stated: a too-late slot (full = 100 <
2000 - 16 = current - miss_threshold) for a flow with requested = 1000
far above the low watermark increments alloc_too_late, demand and alloc,
but does not re-enqueue the flow: its state stays FLOW_UNQUEUED. -/
theorem c4_no_reenqueue_above_watermark :
    allocStep [3] 16
        (99, ⟨[⟨3, 1000, 1000, 0, 0, .unqueued⟩], 0, 0, 0, 0, 0, 0, 2000, 0,
          List.replicate 64 0⟩) =
      some (100, ⟨[⟨3, 1001, 1000, 0, 1, .unqueued⟩], 1, 1, 0, 1, 0, 0, 2000,
        0, List.replicate 64 0⟩) ∧
    (100 : Nat) < 2000 - 16 ∧
    (FlowState.unqueued ≠ FlowState.requestQueue) := by
  refine ⟨by decide, by decide, by decide⟩

theorem queuesInv_reachable {s : FlowQueues} (h : ReachableQ s) :
    QueuesInv s := by
  induction h with
  | init =>
      refine ⟨List.nodup_nil, List.nodup_nil, by simp [initFlowQueues], ?_⟩
      intro k
      simp [initFlowQueues]
  | @enqueueRequest s k _ hk ih =>
      obtain ⟨h1, h2, h3, h4⟩ := ih
      unfold flowqueue_enqueue_request
      split_ifs with hret
      · exact ⟨h1, h2, h3, h4⟩
      · have hknotu : k ∉ s.unreq := fun hm => hk ((h4 k).1.2 hm)
        have hknotr : k ∉ s.retrans := fun hm => hret ((h4 k).2.2 hm)
        have hdisj : s.unreq.Disjoint [k] := by
          intro a ha hak
          rw [List.mem_singleton] at hak
          subst hak
          exact hknotu ha
        refine ⟨h1.append (List.nodup_singleton k) hdisj, h2, ?_, ?_⟩
        · intro j hj
          rcases hj with ⟨hju, hjr⟩
          rcases List.mem_append.1 hju with hju | hju
          · exact h3 j ⟨hju, hjr⟩
          · rw [List.mem_singleton] at hju
            subst hju
            exact hknotr hjr
        · intro j
          by_cases hjk : j = k
          · subst hjk
            simp [hknotr]
          · simpa [hjk] using h4 j
  | @enqueueRetransmit s k _ ih =>
      obtain ⟨h1, h2, h3, h4⟩ := ih
      unfold flowqueue_enqueue_retransmit
      split_ifs with hret hreq
      · exact ⟨h1, h2, h3, h4⟩
      · have hku : k ∈ s.unreq := (h4 k).1.1 hreq
        have hknotr : k ∉ s.retrans := fun hm => hret ((h4 k).2.2 hm)
        have hdisj : s.retrans.Disjoint [k] := by
          intro a ha hak
          rw [List.mem_singleton] at hak
          subst hak
          exact hknotr ha
        refine ⟨h1.erase k, h2.append (List.nodup_singleton k) hdisj, ?_, ?_⟩
        · intro j hj
          rcases hj with ⟨hju, hjr⟩
          rw [h1.mem_erase_iff] at hju
          rcases List.mem_append.1 hjr with hjr | hjr
          · exact h3 j ⟨hju.2, hjr⟩
          · rw [List.mem_singleton] at hjr
            exact hju.1 hjr
        · intro j
          by_cases hjk : j = k
          · subst hjk
            simp [h1.mem_erase_iff]
          · simp only [if_neg hjk]
            rw [h1.mem_erase_iff]
            simpa [hjk] using h4 j
      · have hknotu : k ∉ s.unreq := fun hm => hreq ((h4 k).1.2 hm)
        have hknotr : k ∉ s.retrans := fun hm => hret ((h4 k).2.2 hm)
        have hdisj : s.retrans.Disjoint [k] := by
          intro a ha hak
          rw [List.mem_singleton] at hak
          subst hak
          exact hknotr ha
        refine ⟨h1, h2.append (List.nodup_singleton k) hdisj, ?_, ?_⟩
        · intro j hj
          rcases hj with ⟨hju, hjr⟩
          rcases List.mem_append.1 hjr with hjr | hjr
          · exact h3 j ⟨hju, hjr⟩
          · rw [List.mem_singleton] at hjr
            subst hjr
            exact hknotu hju
        · intro j
          by_cases hjk : j = k
          · subst hjk
            simp [hknotu]
          · simpa [hjk] using h4 j
  | @dequeue s _ hne ih =>
      obtain ⟨h1, h2, h3, h4⟩ := ih
      unfold flowqueue_dequeue
      cases hret : s.retrans with
      | cons k rest =>
          rw [hret] at h2
          have hknotrest : k ∉ rest := (List.nodup_cons.1 h2).1
          have hrest : rest.Nodup := (List.nodup_cons.1 h2).2
          have hknotu : k ∉ s.unreq := fun hm =>
            h3 k ⟨hm, by rw [hret]; exact List.mem_cons_self k rest⟩
          refine ⟨h1, hrest, ?_, ?_⟩
          · intro j hj
            rcases hj with ⟨hju, hjr⟩
            exact h3 j ⟨hju, by rw [hret]; exact List.mem_cons_of_mem k hjr⟩
          · intro j
            by_cases hjk : j = k
            · subst hjk
              simp [hknotu, hknotrest]
            · have := h4 j
              rw [hret] at this
              simpa [hjk] using this
      | nil =>
          cases hu : s.unreq with
          | nil =>
              rw [hret, hu] at hne
              simp at hne
          | cons k rest =>
              dsimp only
              rw [hu] at h1
              have hknotrest : k ∉ rest := (List.nodup_cons.1 h1).1
              have hrest : rest.Nodup := (List.nodup_cons.1 h1).2
              refine ⟨hrest, List.nodup_nil, ?_, ?_⟩
              · intro j hj
                simp at hj
              · intro j
                by_cases hjk : j = k
                · subst hjk
                  simp [hknotrest]
                · have h4j := h4 j
                  rw [hu, hret] at h4j
                  simpa [hjk] using h4j

/-- Claim C7: at every reachable queue state, each flow key occurs at
most once across the request queue and the retransmit queue together,
and the state field of a flow is FLOW_UNQUEUED exactly when it is on neither
queue.  The reachability induction is exactly preservation by
flowqueue_enqueue_request, flowqueue_enqueue_retransmit and
flowqueue_dequeue. -/
theorem c7_queue_membership {s : FlowQueues} (h : ReachableQ s) :
    (∀ k, (s.unreq ++ s.retrans).count k ≤ 1) ∧
    (∀ k, s.st k = .unqueued ↔ (k ∉ s.unreq ∧ k ∉ s.retrans)) := by
  obtain ⟨h1, h2, h3, h4⟩ := queuesInv_reachable h
  constructor
  · intro k
    have hnd : (s.unreq ++ s.retrans).Nodup :=
      h1.append h2 (fun a ha hb => h3 a ⟨ha, hb⟩)
    exact List.nodup_iff_count_le_one.1 hnd k
  · intro k
    constructor
    · intro hun
      refine ⟨fun hm => ?_, fun hm => ?_⟩
      · have := (h4 k).1.2 hm
        rw [hun] at this
        cases this
      · have := (h4 k).2.2 hm
        rw [hun] at this
        cases this
    · rintro ⟨hnu, hnr⟩
      cases hst : s.st k with
      | unqueued => rfl
      | requestQueue => exact absurd ((h4 k).1.1 hst) hnu
      | retransmitQueue => exact absurd ((h4 k).2.1 hst) hnr

/-- Witness for C7 at the concrete reachable state obtained by enqueuing
flow 5 for request: key 5 is queued once and key 7 is unqueued. -/
theorem c7_queue_membership_witness :
    ((flowqueue_enqueue_request initFlowQueues 5).unreq ++
      (flowqueue_enqueue_request initFlowQueues 5).retrans).count 5 ≤ 1 ∧
    ((flowqueue_enqueue_request initFlowQueues 5).st 7 = .unqueued ↔
      (7 ∉ (flowqueue_enqueue_request initFlowQueues 5).unreq ∧
       7 ∉ (flowqueue_enqueue_request initFlowQueues 5).retrans)) :=
  ⟨(c7_queue_membership
      (ReachableQ.enqueueRequest ReachableQ.init (by decide))).1 5,
   (c7_queue_membership
      (ReachableQ.enqueueRequest ReachableQ.init (by decide))).2 7⟩

/-- Claim C2 (amended): every AREQ entry emitted by the send_request loop
carries `tslots = min(demand_tslots, alloc_tslots +
FASTPASS_REQUEST_WINDOW_SIZE - 1)` of the flow it was dequeued for (the
window is anchored at the allocation count, not at the acked count as the
spec states), and only flows with that value above their acked count emit
an entry. -/
theorem c2_new_requested_value (n : Nat) (queue : List FpFlow)
    (e : AreqEntry) (he : e ∈ send_request_loop n queue) :
    ∃ f, f ∈ queue ∧ e.src_dst_key = f.src_dst_key ∧
      f.acked_tslots < e.tslots ∧
      e.tslots = min f.demand_tslots
        (f.alloc_tslots + (FASTPASS_REQUEST_WINDOW_SIZE - 1)) := by
  induction queue generalizing n with
  | nil => cases he
  | cons f queue ih =>
      unfold send_request_loop at he
      split at he
      · split at he
        · obtain ⟨g, hg, hkey, hlt, hval⟩ := ih _ he
          exact ⟨g, List.mem_cons_of_mem _ hg, hkey, hlt, hval⟩
        · rcases List.mem_cons.1 he with rfl | he
          · rename_i hnotacked
            push_neg at hnotacked
            exact ⟨f, List.mem_cons_self _ _, rfl, hnotacked, rfl⟩
          · obtain ⟨g, hg, hkey, hlt, hval⟩ := ih _ he
            exact ⟨g, List.mem_cons_of_mem _ hg, hkey, hlt, hval⟩
      · cases he

/-- Witness for C2: the single queued flow (demand 10000, acked 0,
alloc 5) emits the entry (3, 8196) whose value is min(10000, 5 + 8191). -/
theorem c2_new_requested_value_witness :
    ∃ f, f ∈ [(⟨3, 10000, 0, 0, 5, .requestQueue⟩ : FpFlow)] ∧
      (⟨3, 8196⟩ : AreqEntry).src_dst_key = f.src_dst_key ∧
      f.acked_tslots < (⟨3, 8196⟩ : AreqEntry).tslots ∧
      (⟨3, 8196⟩ : AreqEntry).tslots = min f.demand_tslots
        (f.alloc_tslots + (FASTPASS_REQUEST_WINDOW_SIZE - 1)) :=
  c2_new_requested_value 0 [⟨3, 10000, 0, 0, 5, .requestQueue⟩] ⟨3, 8196⟩
    (by decide)

/-- Counterexample to claim C2 as stated: a flow with demand 10000,
acked 0 and alloc 5 gets the AREQ value 8196 = min(10000, 5 + 8191),
whereas min(demand, acked + FASTPASS_REQUEST_WINDOW_SIZE - 1) would be
8191. -/
theorem c2_window_uses_alloc_not_acked :
    send_request_loop 0 [⟨3, 10000, 0, 0, 5, .requestQueue⟩] =
      [⟨3, 8196⟩] ∧
    min 10000 (0 + (FASTPASS_REQUEST_WINDOW_SIZE - 1)) = 8191 ∧
    (8196 : Nat) ≠ 8191 := by
  refine ⟨?_, by decide, by decide⟩
  decide

/-- Claim C5: a flow whose allocation count equals its demand absorbs a
further allocation without any change to the flow (counters and queue
state) or to the aggregate allocation counter; only the unwanted_alloc
statistic is incremented.  In particular, starting from demand = 5 and
alloc = 0, seven allocations leave alloc = 5 and unwanted_alloc = 2. -/
theorem c5_overalloc_only_bumps_unwanted :
    (∀ s : FpFlow × Nat × Nat, s.1.alloc_tslots = s.1.demand_tslots →
      flow_inc_alloc_q s = (s.1, s.2.1, s.2.2 + 1)) ∧
    (flow_inc_alloc_q^[7]
        (⟨3, 5, 5, 5, 0, .unqueued⟩, 0, 0) =
      (⟨3, 5, 5, 5, 5, .unqueued⟩, 5, 2)) := by
  constructor
  · intro s h
    simp [flow_inc_alloc_q, flow_inc_alloc, h]
  · decide

/-- Witness for the hypothesis-bearing part of the C5 theorem: a saturated
flow (demand = alloc = 4) leaves everything except unwanted_alloc alone. -/
theorem c5_overalloc_witness :
    flow_inc_alloc_q (⟨9, 4, 4, 4, 4, .unqueued⟩, 11, 6) =
      (⟨9, 4, 4, 4, 4, .unqueued⟩, 11, 7) :=
  c5_overalloc_only_bumps_unwanted.1 (⟨9, 4, 4, 4, 4, .unqueued⟩, 11, 6) rfl

/-- Claim C8: trigger_request schedules a next-request event only when no
request is pending (`time_next_req = NO_NEXT_REQUEST`), and then the
scheduled time is `max(req_t + req_cost, now + req_min_gap)` with the
token-bucket fields untouched; when a request is already scheduled the
call changes nothing. -/
theorem c8_trigger_request_spec (q : PacerState) (now : Nat) :
    (q.time_next_req = NO_NEXT_REQUEST →
      trigger_request q now =
        { q with time_next_req := max (q.req_t + q.req_cost) (now + q.req_min_gap) }) ∧
    (q.time_next_req ≠ NO_NEXT_REQUEST → trigger_request q now = q) := by
  constructor
  · intro h
    simp [trigger_request, set_request_timer, h]
  · intro h
    simp [trigger_request, h]

/-- Witness for C8 at concrete pacer states: an idle pacer gets the
max-of-two-deadlines schedule, a busy pacer is unchanged. -/
theorem c8_trigger_request_witness :
    trigger_request ⟨100, 26000, 1000, NO_NEXT_REQUEST⟩ 50000 =
      ⟨100, 26000, 1000, 51000⟩ ∧
    trigger_request ⟨100, 26000, 1000, 7777⟩ 50000 =
      ⟨100, 26000, 1000, 7777⟩ := by
  constructor
  · exact (c8_trigger_request_spec ⟨100, 26000, 1000, NO_NEXT_REQUEST⟩ 50000).1 rfl
  · exact (c8_trigger_request_spec ⟨100, 26000, 1000, 7777⟩ 50000).2 (by decide)

theorem ringIdx_eq {m k : Nat} (hm : m + 1 = 2 ^ k) (hk : k ≤ 32) :
    ∀ x : Nat, (x % 2 ^ 32) &&& m = x % (m + 1) := by
  intro x
  rw [show m = 2 ^ k - 1 from by omega, Nat.and_pow_two_sub_one_eq_mod,
    Nat.mod_mod_of_dvd x (pow_dvd_pow 2 hk)]
  congr 1
  omega

theorem mod_ne_of_lt_period {a b n : Nat} (hab : a < b) (hbn : b - a < n) :
    a % n ≠ b % n := by
  intro h
  have h1 : n ∣ b - a := (Nat.modEq_iff_dvd' (le_of_lt hab)).1 h
  have h2 := Nat.le_of_dvd (by omega) h1
  omega

/-- Claim C10: with `num_elems = 2^k` slots and at most `num_elems - 1`
elements stored (the ring invariant), fp_ring_enqueue fails with -ENOBUFS
leaving the ring untouched exactly when `num_elems - 1` elements are
held, and otherwise appends the element and returns 0; fp_ring_dequeue
fails with -ENOENT exactly when the ring is empty, and otherwise removes
and returns the oldest element (FIFO order). -/
theorem c10_fp_ring_fifo_semantics {α : Type} (r : FpRing α) (e : α)
    (k : Nat) (hmask : r.mask + 1 = 2 ^ k) (hk : k ≤ 32)
    (hlen : r.elem.length = r.mask + 1)
    (hht : r.head ≤ r.tail) (hcount : r.tail - r.head ≤ r.mask) :
    (r.tail - r.head = r.mask → fp_ring_enqueue r e = (-ENOBUFS, r)) ∧
    (r.tail - r.head < r.mask →
      (fp_ring_enqueue r e).1 = 0 ∧
      ringList (fp_ring_enqueue r e).2 = ringList r ++ [some e]) ∧
    (r.head = r.tail → fp_ring_dequeue r = (-ENOENT, none, r)) ∧
    (r.head < r.tail →
      (fp_ring_dequeue r).1 = 0 ∧
      (fp_ring_dequeue r).2.1 = (ringList r).headD none ∧
      ringList (fp_ring_dequeue r).2.2 = (ringList r).tail) := by
  have e32 : (2 : Nat) ^ 32 = 4294967296 := by norm_num
  have hm32 : r.mask < 4294967296 := by
    have h1 : 2 ^ k ≤ 2 ^ 32 := Nat.pow_le_pow_right (by norm_num) hk
    have h2 : (2 : Nat) ^ 32 = 4294967296 := by norm_num
    omega
  refine ⟨?_, ?_, ?_, ?_⟩
  · intro hfull
    unfold fp_ring_enqueue
    split_ifs with hc
    · rfl
    · exfalso
      rw [e32] at hc
      omega
  · intro hlt
    unfold fp_ring_enqueue
    split_ifs with hc
    · exfalso
      rw [e32] at hc
      omega
    · refine ⟨rfl, ?_⟩
      unfold ringList
      dsimp only
      simp only [ringIdx_eq hmask hk]
      rw [show r.tail + 1 - r.head = (r.tail - r.head) + 1 from by omega,
        List.range_succ, List.map_append]
      congr 1
      · refine List.map_congr_left ?_
        intro i hi
        rw [List.mem_range] at hi
        have hne : r.tail % (r.mask + 1) ≠ (r.head + i) % (r.mask + 1) :=
          fun h =>
            mod_ne_of_lt_period (a := r.head + i) (b := r.tail)
              (by omega) (by omega) h.symm
        simp only [List.getD_eq_getElem?_getD, List.getElem?_set_ne hne]
      · simp only [List.map_cons, List.map_nil]
        rw [show r.head + (r.tail - r.head) = r.tail from by omega]
        have hlt2 : r.tail % (r.mask + 1) < r.elem.length := by
          rw [hlen]
          exact Nat.mod_lt _ (by omega)
        simp [List.getD_eq_getElem?_getD, List.getElem?_set_self hlt2]
  · intro hempty
    unfold fp_ring_dequeue
    split_ifs with hc
    · rfl
    · exfalso
      exact hc (by rw [hempty])
  · intro hne
    unfold fp_ring_dequeue
    split_ifs with hc
    · exfalso
      rw [e32] at hc
      omega
    · refine ⟨rfl, ?_, ?_⟩
      · unfold ringList
        rw [show r.tail - r.head = (r.tail - r.head - 1) + 1 from by omega,
          List.range_succ_eq_map, List.map_cons]
        simp [ringIdx_eq hmask hk]
      · unfold ringList
        dsimp only
        rw [show r.tail - r.head = (r.tail - r.head - 1) + 1 from by omega,
          List.range_succ_eq_map, List.map_cons, List.tail_cons, List.map_map,
          show r.tail - (r.head + 1) = r.tail - r.head - 1 from by omega]
        refine List.map_congr_left ?_
        intro i hi
        simp only [Function.comp]
        rw [ringIdx_eq hmask hk, ringIdx_eq hmask hk,
          show r.head + 1 + i = r.head + (i + 1) from by omega]

/-- Witness for C10 at a concrete 4-slot ring holding two elements:
enqueue appends, dequeue returns the oldest element. -/
theorem c10_fp_ring_fifo_semantics_witness :
    ((fp_ring_enqueue
        (⟨2, 4, 3, [some 10, some 11, some 12, some 13]⟩ : FpRing Nat)
        99).1 = 0 ∧
      ringList (fp_ring_enqueue
        (⟨2, 4, 3, [some 10, some 11, some 12, some 13]⟩ : FpRing Nat)
        99).2 =
        ringList (⟨2, 4, 3, [some 10, some 11, some 12, some 13]⟩ :
          FpRing Nat) ++ [some 99]) ∧
    ((fp_ring_dequeue
        (⟨2, 4, 3, [some 10, some 11, some 12, some 13]⟩ : FpRing Nat)).2.1 =
      (ringList (⟨2, 4, 3, [some 10, some 11, some 12, some 13]⟩ :
        FpRing Nat)).headD none) :=
  ⟨(c10_fp_ring_fifo_semantics
      (⟨2, 4, 3, [some 10, some 11, some 12, some 13]⟩ : FpRing Nat) 99 2
      (by decide) (by decide) (by decide) (by decide) (by decide)).2.1
    (by decide),
   ((c10_fp_ring_fifo_semantics
      (⟨2, 4, 3, [some 10, some 11, some 12, some 13]⟩ : FpRing Nat) 99 2
      (by decide) (by decide) (by decide) (by decide) (by decide)).2.2.2
    (by decide)).2.1⟩

end Fastpass
